import Mathlib

/-!
Verification development for the `bracket` template engine.

The repository is embedded shallowly: the template source is a `List Char`,
byte ranges are `Span`s, and each Rust function used by a claim is translated
into an executable Lean definition of the same name.  The repository ships two
generations of some modules; where a module referenced by the code is absent
from the source tree (the lexer, `parser/statement.rs`, `parser/ast.rs`), the
corresponding definition is modelled from the specification and says so in its
doc comment.
-/

namespace Bracket

/-- A byte range into the source, mirroring `std::ops::Range<usize>`
(`start..end`); `stop` stands for the `end` field. -/
structure Span where
  start : Nat
  stop : Nat
deriving DecidableEq, Repr

/-- Slice of the source corresponding to `&source[a..b]`. -/
def slice (src : List Char) (a b : Nat) : List Char :=
  (src.take b).drop a

/-- Slice of the source for a `Span`. -/
def sliceSpan (src : List Char) (sp : Span) : List Char :=
  slice src sp.start sp.stop

/-- JSON values (`serde_json::Value`), as far as the claims need them. -/
inductive Json where
  | null
  | boolean (b : Bool)
  | num (n : Int)
  | str (s : List Char)
  | arr (items : List Json)
  | obj (fields : List (List Char × Json))

/-- Syntax errors, from `src/error/syntax.rs` and the variants raised by
`src/parser/mod.rs` (`StringLiteralNewline`, `OpenStatement`) and by the
statement parser (`EmptyStatement`, carrying the byte offset the repository's
`err_empty_statement` test asserts).  Positions are carried only where a claim
mentions them.  `panicked` models a Rust `panic!`/`unwrap` failure path. -/
inductive SynErr where
  | emptyStatement (byte : Nat)
  | openStatement (unclosedString : Bool)
  | stringLiteralNewline
  | unexpectedPathExplicitThis
  | unexpectedPathParent
  | unexpectedPathLocal
  | unexpectedPathDelimiter
  | expectedPathDelimiter
  | unexpectedPathParentWithLocal
  | unexpectedPathParentWithExplicit
  | tagNameMismatch
  | blockNotOpen
  | panicked
deriving DecidableEq, Repr

/-- Helper errors (`HelperError`): the arity variants from
`src/render/context.rs` plus a generic error for helper-raised failures.
`panicked` models a Rust `unwrap` failure path. -/
inductive HelperError where
  | arityExact (name : List Char) (n : Nat)
  | arityRange (name : List Char) (lo hi : Nat)
  | other (msg : List Char)
  | panicked
deriving DecidableEq, Repr

/-- Path component kinds: the richer set used by `src/parser/path.rs`
(`parser::ast::ComponentType`; the module itself is absent from the tree,
its variants are exactly those produced by `component_type` in
`src/parser/path.rs`). -/
inductive ComponentType where
  | thisKeyword
  | thisDotSlash
  | parent
  | identifier
  | localIdentifier
  | delimiter
  | arrayAccess
deriving DecidableEq, Repr

/-- A path component: its kind and the span of its text
(`Component(source, ComponentType, Span)`). -/
structure Component where
  ctype : ComponentType
  span : Span
deriving DecidableEq, Repr

/-- `Component::is_explicit`: `ThisKeyword` or `ThisDotSlash`. -/
def Component.is_explicit (c : Component) : Bool :=
  c.ctype = ComponentType.thisKeyword || c.ctype = ComponentType.thisDotSlash

/-- `Component::is_local`: a `LocalIdentifier` (`@name`). -/
def Component.is_local (c : Component) : Bool :=
  c.ctype = ComponentType.localIdentifier

/-- `Component::is_explicit_dot_slash`: the `./` form. -/
def Component.is_explicit_dot_slash (c : Component) : Bool :=
  c.ctype = ComponentType.thisDotSlash

/-- `Component::is_root`.  Modelled from the spec: the `root` flag is set by a
leading `@root` reference, so a component is a root reference when its source
text is `@root` (parser/ast.rs is absent from the tree). -/
def Component.is_root (src : List Char) (c : Component) : Bool :=
  sliceSpan src c.span = ('@' :: ['r', 'o', 'o', 't'])

/-- `parser::ast::Path`: ordered components plus the `root`, `explicit` and
`parents` qualifiers.  Modelled from the spec (the module is absent from the
tree): "A `Path` is an ordered list of components plus three flags: `root`,
`explicit`, and `parents` (count of leading `../`)."  The mutating setters
of the Rust struct become functional updates. -/
structure Path where
  components : List Component
  root : Bool
  explicit : Bool
  parents : Nat
deriving DecidableEq, Repr

/-- `Path::new`. -/
def Path.new : Path :=
  { components := [], root := false, explicit := false, parents := 0 }

/-- `Path::is_empty`. -/
def Path.is_empty (p : Path) : Bool :=
  p.components.isEmpty

/-- `Path::is_simple`.  Modelled from the spec: "A `Path` is *simple* iff it
has exactly one `Identifier` component and no flags." -/
def Path.is_simple (p : Path) : Bool :=
  match p.components with
  | [c] =>
    c.ctype = ComponentType.identifier && !p.root && !p.explicit
      && p.parents = 0
  | _ => false

/-- `Path::as_str`: the source text covered by the components, from the first
component's start to the last component's end (empty when there are none). -/
def Path.as_str (src : List Char) (p : Path) : List Char :=
  match p.components.head?, p.components.getLast? with
  | some first, some last => slice src first.span.start last.span.stop
  | _, _ => []

/-- `BlockType` from `src/lexer/ast.rs`. -/
inductive BlockType where
  | root
  | rawBlock
  | rawStatement
  | rawComment
  | comment
  | scoped
deriving DecidableEq, Repr

mutual

/-- Call target: a path or a nested sub-expression, as matched by
`Render::statement` on `call.target()`.  (`parser::ast::CallTarget` is absent
from the tree; the shape is the spec's: "a *target* (either a `Path` or a
nested sub-expression `Call`)".) -/
inductive CallTarget where
  | path (p : Path)
  | subExpr (c : Call)

/-- A call (`Call` in `src/lexer/ast.rs`): the `partial` flag (named `pflag`
here because `partial` is reserved), the open and close tag spans, and the
target.  Arguments and hash are omitted: no claim inspects them, and the
helper context (`src/render/context.rs`) materialises them separately. -/
inductive Call where
  | mk (pflag : Bool) (openSpan : Span) (closeSpan : Span)
      (target : CallTarget)

end

/-- The `partial` flag of a call. -/
def Call.pflag : Call → Bool
  | .mk f _ _ _ => f

/-- The open-tag span of a call. -/
def Call.openSpan : Call → Span
  | .mk _ o _ _ => o

/-- The close-tag span of a call. -/
def Call.closeSpan : Call → Span
  | .mk _ _ c _ => c

/-- The target of a call. -/
def Call.target : Call → CallTarget
  | .mk _ _ _ t => t

/-- `Call::as_str`: `&source[open.start..close.end]`. -/
def Call.as_str (src : List Char) (c : Call) : List Char :=
  slice src c.openSpan.start c.closeSpan.stop

/-- `Call::open`: `&source[open.start..open.end]`. -/
def Call.openStr (src : List Char) (c : Call) : List Char :=
  sliceSpan src c.openSpan

/-- `Call::close`: `&source[close.start..close.end]`. -/
def Call.closeStr (src : List Char) (c : Call) : List Char :=
  sliceSpan src c.closeSpan

mutual

/-- `Node` from `src/lexer/ast.rs`: text leaf, statement leaf, or block. -/
inductive Nd where
  | text (sp : Span)
  | statement (c : Call)
  | block (b : Blk)

/-- `Block` from `src/lexer/ast.rs`: kind, optional open and close tag spans,
the block call set by the parser, and the child nodes. -/
inductive Blk where
  | mk (kind : BlockType) (openSpan : Option Span) (closeSpan : Option Span)
      (call : Option Call) (nodes : List Nd)

end

/-- The kind of a block. -/
def Blk.kind : Blk → BlockType
  | .mk k _ _ _ _ => k

/-- The open-tag span of a block. -/
def Blk.openSpan : Blk → Option Span
  | .mk _ o _ _ _ => o

/-- The close-tag span of a block. -/
def Blk.closeSpan : Blk → Option Span
  | .mk _ _ c _ _ => c

/-- The call of a block. -/
def Blk.call : Blk → Option Call
  | .mk _ _ _ c _ => c

/-- The child nodes of a block. -/
def Blk.nodes : Blk → List Nd
  | .mk _ _ _ _ ns => ns

/-- `Block::new(source, kind, open)`: no nodes, no close span, no call. -/
def Blk.new (kind : BlockType) (openSpan : Option Span) : Blk :=
  .mk kind openSpan none none []

/-- `Block::push`: append a child node (Rust `Vec::push`). -/
def Blk.push (b : Blk) (n : Nd) : Blk :=
  .mk b.kind b.openSpan b.closeSpan b.call (b.nodes ++ [n])

/-- `Block::exit`: record the close span. -/
def Blk.exit (b : Blk) (sp : Span) : Blk :=
  .mk b.kind b.openSpan (some sp) b.call b.nodes

/-- `Block::set_call`. -/
def Blk.set_call (b : Blk) (c : Call) : Blk :=
  .mk b.kind b.openSpan b.closeSpan (some c) b.nodes

/-- `Block::as_str`: the whole source for the root; otherwise
`&source[open.start..close.end]` with `open` defaulting to `0..0` and
`close` defaulting to `0..source.len()`. -/
def Blk.as_str (src : List Char) (b : Blk) : List Char :=
  match b.kind with
  | .root => src
  | _ =>
    let o := b.openSpan.getD ⟨0, 0⟩
    let c := b.closeSpan.getD ⟨0, src.length⟩
    slice src o.start c.stop

/-- `Block::open`: the open-tag text, or empty when absent. -/
def Blk.openStr (src : List Char) (b : Blk) : List Char :=
  match b.openSpan with
  | some o => sliceSpan src o
  | none => []

/-- `Block::close`: the close-tag text, or empty when absent. -/
def Blk.closeStr (src : List Char) (b : Blk) : List Char :=
  match b.closeSpan with
  | some c => sliceSpan src c
  | none => []

/-- `Node::as_str` from `src/lexer/ast.rs`. -/
def Nd.as_str (src : List Char) : Nd → List Char
  | .text sp => sliceSpan src sp
  | .statement c => c.as_str src
  | .block b => b.as_str src

mutual

/-- `impl fmt::Display for Node`: delegate to the variant. -/
def displayNd (src : List Char) : Nd → List Char
  | .text sp => sliceSpan src sp
  | .statement c => c.as_str src
  | .block b => displayBlk src b

/-- `impl fmt::Display for Block`: the root writes the whole source;
any other block formats its child nodes in order. -/
def displayBlk (src : List Char) : Blk → List Char
  | .mk k _ _ _ ns =>
    match k with
    | .root => src
    | _ => displayList src ns

/-- Formats a node list in order (the `for t in self.nodes()` loop). -/
def displayList (src : List Char) : List Nd → List Char
  | [] => []
  | n :: rest => displayNd src n ++ displayList src rest

end

mutual

/-- The `as_str` text of one leaf node, descending into blocks: used to state
the document-order concatenation of all leaf nodes of a tree. -/
def leafNd (src : List Char) : Nd → List Char
  | .text sp => sliceSpan src sp
  | .statement c => c.as_str src
  | .block b => leafBlk src b

/-- Concatenated leaf text of a block's children in document order. -/
def leafBlk (src : List Char) : Blk → List Char
  | .mk _ _ _ _ ns => leafList src ns

/-- Concatenated leaf text of a node list in document order. -/
def leafList (src : List Char) : List Nd → List Char
  | [] => []
  | n :: rest => leafNd src n ++ leafList src rest

end

/-! ## Lexer token model

The lexer module itself is absent from the source tree; the token *kinds*
below are exactly those consumed by `Parser::parse` in `src/parser/mod.rs`
and by `src/parser/path.rs`, and the classification (`is_text`,
`is_newline`) follows the spec's lexer table (§4.A): outer text and
newlines, and the verbatim bodies of raw blocks, comments and raw
statements, are text; parameter-mode and string-mode tokens are not. -/

/-- String-literal-mode lexemes (`lexer::StringLiteral`), as pushed into the
parameter cache by `Parser::parse` (`Parameters::StringToken(lex)`). -/
inductive STok where
  | chunk
  | escapedQuote
  | escapedNewline
  | strEnd
deriving DecidableEq, Repr

/-- Parameter-mode lexemes (`lexer::Parameters`) used by the parser and the
path parser.  `pEnd` is `Parameters::End`; `stringLiteral` is the opening
quote that switches to string mode; `stringToken` wraps a string-mode lexeme
re-tagged by the parser. -/
inductive PTok where
  | explicitThisKeyword
  | explicitThisDotSlash
  | parentRef
  | identifier
  | localIdentifier
  | pathDelimiter
  | arrayAccess
  | stringLiteral
  | stringToken (s : STok)
  | pEnd
deriving DecidableEq, Repr

/-- Outer-mode lexemes (`lexer::Block`): literal text, a newline, or one of
the construct openers/closers from the spec's lexer table. -/
inductive BlockLex where
  | textLex
  | newlineLex
  | startRawBlock
  | startRawComment
  | startRawStatement
  | startComment
  | startBlockScope
  | endBlockScope
  | startStatement
deriving DecidableEq, Repr

/-- A lexer token `(kind, span)` as consumed by `Parser::parse`.  The inner
modes for raw blocks, raw comments, raw statements and comments each carry
verbatim text tokens and an `End` token (`isEnd`). -/
inductive Tok where
  | block (l : BlockLex) (sp : Span)
  | rawBlock (isEnd : Bool) (sp : Span)
  | rawComment (isEnd : Bool) (sp : Span)
  | rawStatement (isEnd : Bool) (sp : Span)
  | comment (isEnd : Bool) (sp : Span)
  | parameters (l : PTok) (sp : Span)
  | stringLit (newline : Bool) (l : STok) (sp : Span)
deriving DecidableEq, Repr

/-- The span of a token. -/
def Tok.span : Tok → Span
  | .block _ sp => sp
  | .rawBlock _ sp => sp
  | .rawComment _ sp => sp
  | .rawStatement _ sp => sp
  | .comment _ sp => sp
  | .parameters _ sp => sp
  | .stringLit _ _ sp => sp

/-- `Token::is_text`: outer literal text and newlines, and the verbatim
bodies of the four delimited constructs. -/
def Tok.is_text : Tok → Bool
  | .block .textLex _ => true
  | .block .newlineLex _ => true
  | .rawBlock false _ => true
  | .rawComment false _ => true
  | .rawStatement false _ => true
  | .comment false _ => true
  | _ => false

/-- `Token::is_newline`: an outer newline token. -/
def Tok.is_newline : Tok → Bool
  | .block .newlineLex _ => true
  | _ => false

/-! ## Path parser (`src/parser/path.rs`) -/

/-- `is_path_component` from `src/parser/path.rs`. -/
def is_path_component (lex : PTok) : Bool :=
  match lex with
  | .explicitThisKeyword | .explicitThisDotSlash | .parentRef
  | .identifier | .localIdentifier | .pathDelimiter | .arrayAccess => true
  | _ => false

/-- `component_type` from `src/parser/path.rs`.  The catch-all panics in
Rust; it is only ever applied to path components, and `delimiter` stands in
for the unreachable branch. -/
def component_type (lex : PTok) : ComponentType :=
  match lex with
  | .explicitThisKeyword => .thisKeyword
  | .explicitThisDotSlash => .thisDotSlash
  | .parentRef => .parent
  | .identifier => .identifier
  | .localIdentifier => .localIdentifier
  | .pathDelimiter => .delimiter
  | .arrayAccess => .arrayAccess
  | _ => .delimiter

namespace path

/-- `parents` from `src/parser/path.rs`: count the run of leading `../`
references (the first one was already seen by the caller), returning the
first token that is not a parent reference together with the rest of the
stream. -/
def parentsFn (p : Path) :
    List (PTok × Span) → Path × Option (PTok × Span) × List (PTok × Span)
  | [] => (p, none, [])
  | (lex, sp) :: rest =>
    match lex with
    | .parentRef => parentsFn { p with parents := p.parents + 1 } rest
    | _ => (p, some (lex, sp), rest)

/-- `components` from `src/parser/path.rs`: the loop that consumes every
path component *after* the first one.  `wants_delimiter` alternates
identifiers and delimiters; an explicit-this, parent-reference or
local-identifier token here is a syntax error.  Returns the path together
with the first unconsumed token (`Parameters::End` or a non-component). -/
def components (src : List Char) (p : Path) (wantsDelimiter : Bool) :
    List (PTok × Span) →
    Except SynErr (Path × Option (PTok × Span) × List (PTok × Span))
  | [] => .ok (p, none, [])
  | (lex, sp) :: rest =>
    if lex = .pEnd then .ok (p, some (lex, sp), rest)
    else if is_path_component lex then
      match lex with
      | .explicitThisKeyword => .error .unexpectedPathExplicitThis
      | .explicitThisDotSlash => .error .unexpectedPathExplicitThis
      | .parentRef => .error .unexpectedPathParent
      | .localIdentifier => .error .unexpectedPathLocal
      | _ =>
        if wantsDelimiter then
          match lex with
          | .pathDelimiter => components src p false rest
          | _ => .error .expectedPathDelimiter
        else
          match lex with
          | .pathDelimiter => .error .unexpectedPathDelimiter
          | _ =>
            components src
              { p with
                components :=
                  p.components ++ [⟨component_type lex, sp⟩] }
              true rest
    else .ok (p, some (lex, sp), rest)

/-- The body of the `while let Some(token) = next` loop of `parse` in
`src/parser/path.rs`: skip non-component tokens; on the first path
component, set the `root`/`explicit` flags, check the parent-exclusivity
rules, add the component and hand the rest of the stream to `components`. -/
def parseLoop (src : List Char) (p : Path) :
    Option (PTok × Span) → List (PTok × Span) →
    Except SynErr (Option Path × List (PTok × Span))
  | none, _ => .ok (none, [])
  | some (lex, sp), rest =>
    if is_path_component lex then
      let c : Component := ⟨component_type lex, sp⟩
      let p := if p.is_empty && c.is_root src then { p with root := true }
               else p
      let p := if c.is_explicit then { p with explicit := true } else p
      if c.is_local && p.parents > 0 then
        .error .unexpectedPathParentWithLocal
      else if c.is_explicit && p.parents > 0 then
        .error .unexpectedPathParentWithExplicit
      else
        let wantsDelimiter := !c.is_explicit_dot_slash
        match components src { p with components := p.components ++ [c] }
            wantsDelimiter rest with
        | .error e => .error e
        | .ok (p, nxt, rest) => .ok (some p, nxt.toList ++ rest)
    else
      match rest with
      | [] => .ok (none, [])
      | t :: ts => parseLoop src p (some t) ts

/-- `parse` from `src/parser/path.rs`: reject a leading delimiter, count
leading `../` references, then run the component loop. -/
def parse (src : List Char) :
    List (PTok × Span) → Except SynErr (Option Path × List (PTok × Span))
  | [] => .ok (none, [])
  | (lex, sp) :: rest =>
    match lex with
    | .pathDelimiter => .error .unexpectedPathDelimiter
    | .parentRef =>
      let p := { Path.new with parents := 1 }
      let (p, nxt, rest) := parentsFn p rest
      parseLoop src p nxt rest
    | _ => parseLoop src Path.new (some (lex, sp)) rest

end path

/-! ## Statement parser and main parser (`src/parser/mod.rs`) -/

/-- `ParameterContext`: whether the cached parameters belong to a block open
tag or to an inline statement. -/
inductive PCtx where
  | blockCtx
  | statementCtx
deriving DecidableEq, Repr

/-- `ParameterCache`: the context, the span of the opening token, the spans
of the cached parameter tokens, and the span of the `Parameters::End` token
(defaulted to `0..0` until seen). -/
structure PCache where
  ctx : PCtx
  start : Span
  stop : Span
  toks : List (PTok × Span)
deriving DecidableEq, Repr

/-- `ParameterCache::new(context, start)`. -/
def PCache.new (ctx : PCtx) (start : Span) : PCache :=
  { ctx := ctx, start := start, stop := ⟨0, 0⟩, toks := [] }

/-- `statement::parse`.  Modelled from the spec: `parser/statement.rs` is
absent from the source tree.  The spec says the statement parser reads the
call target (a path) from the cached parameter tokens and produces a `Call`
whose open and close spans are the cached tag-open and tag-close spans, and
the boundary test `err_empty_statement` fixes the empty case: an empty
statement is the syntax error `EmptyStatement` positioned at the start of
the closing `}}` (byte offset 2 for the source `{{}}`).  Arguments, hash
parameters and the partial flag are not modelled (no claim touches them). -/
def statementParse (src : List Char) (cache : PCache) :
    Except SynErr Call :=
  if cache.toks.isEmpty then .error (.emptyStatement cache.stop.start)
  else
    match path.parse src cache.toks with
    | .error e => .error e
    | .ok (some p, _) =>
      .ok (.mk false cache.start cache.stop (.path p))
    | .ok (none, _) => .error (.emptyStatement cache.stop.start)

/-- The mutable state of `Parser::parse`: the block stack (top first, the
root block last), the text-normalisation accumulator, the parameter cache,
and the line counter of `ParseState`. -/
structure PState where
  stack : List Blk
  txt : Option Span
  params : Option PCache
  line : Nat

/-- Push a node onto the block at the top of the stack
(`self.stack.last_mut().unwrap().push(node)`); the empty-stack case is the
Rust panic and is unreachable from `Parser::parse`'s initial state. -/
def pushTop (stack : List Blk) (n : Nd) : List Blk :=
  match stack with
  | [] => []
  | b :: rest => b.push n :: rest

/-- Set the call of the block at the top of the stack
(`current.set_call(call)`). -/
def setCallTop (stack : List Blk) (c : Call) : List Blk :=
  match stack with
  | [] => []
  | b :: rest => b.set_call c :: rest

/-- Flush the accumulated text into the top block, as both the main loop and
`enter_stack`/`exit_stack` do (`if let Some(txt) = text.take() { ... }`). -/
def flushText (st : PState) : PState :=
  match st.txt with
  | none => st
  | some sp => { st with stack := pushTop st.stack (.text sp), txt := none }

/-- `Parser::enter_stack`: consume the pending text into the current block,
then push the new block. -/
def enterStack (b : Blk) (st : PState) : PState :=
  let st := flushText st
  { st with stack := b :: st.stack }

/-- `Parser::exit_stack`: consume the pending text into the current block,
record its close span, pop it and append it to its parent.  Returns `none`
where the Rust code panics (`last_mut().unwrap()` on an empty stack, or a
close with no enclosing block). -/
def exitStack (close : Span) (st : PState) : Option PState :=
  match st.stack with
  | [] => none
  | top :: rest =>
    let top := match st.txt with
      | some sp => top.push (.text sp)
      | none => top
    let top := top.exit close
    match rest with
    | [] => none
    | parent :: rest => some { st with stack := (parent.push (.block top)) :: rest, txt := none }

/-- Accumulate a text token into the text normalisation buffer
(`text.get_or_insert(Text(source, span)); txt.1.end = span.end`). -/
def accumText (sp : Span) (st : PState) : PState :=
  match st.txt with
  | none => { st with txt := some sp }
  | some old => { st with txt := some ⟨old.start, sp.stop⟩ }

/-- Does the parameter cache contain the opening quote of an unterminated
string literal (`find(|(t, _)| &Parameters::StringLiteral == t)`)? -/
def hasOpenString (c : PCache) : Bool :=
  c.toks.any (fun t => t.1 = PTok.stringLiteral)

/-- The token-consuming loop of `Parser::parse` from `src/parser/mod.rs`,
one case per arm of the Rust `match`, plus the end-of-stream epilogue:
unterminated parameters are the `OpenStatement` error (noting an unclosed
string literal), remaining text is flushed, and the root block
(`self.stack.swap_remove(0)`) is returned. -/
def parseGo (src : List Char) : List Tok → PState → Except SynErr Blk
  | [], st =>
    match st.params with
    | some c => .error (.openStatement (hasOpenString c))
    | none =>
      let st := flushText st
      match st.stack.getLast? with
      | some root => .ok root
      | none => .error .panicked
  | t :: ts, st =>
    let st := if t.is_text then accumText t.span st else flushText st
    if t.is_newline then parseGo src ts { st with line := st.line + 1 }
    else
      match t with
      | .block lex sp =>
        match lex with
        | .startRawBlock =>
          parseGo src ts (enterStack (Blk.new .rawBlock (some sp)) st)
        | .startRawComment =>
          parseGo src ts (enterStack (Blk.new .rawComment (some sp)) st)
        | .startRawStatement =>
          parseGo src ts (enterStack (Blk.new .rawStatement (some sp)) st)
        | .startComment =>
          parseGo src ts (enterStack (Blk.new .comment (some sp)) st)
        | .startBlockScope =>
          let st := { st with params := some (PCache.new .blockCtx sp) }
          parseGo src ts (enterStack (Blk.new .scoped (some sp)) st)
        | .endBlockScope =>
          match exitStack sp st with
          | some st => parseGo src ts st
          | none => .error .panicked
        | .startStatement =>
          parseGo src ts { st with params := some (PCache.new .statementCtx sp) }
        | _ => parseGo src ts st
      | .rawBlock isEnd sp =>
        if isEnd then
          match exitStack sp st with
          | some st => parseGo src ts st
          | none => .error .panicked
        else parseGo src ts st
      | .rawComment isEnd sp =>
        if isEnd then
          match exitStack sp st with
          | some st => parseGo src ts st
          | none => .error .panicked
        else parseGo src ts st
      | .rawStatement isEnd sp =>
        if isEnd then
          match exitStack sp st with
          | some st => parseGo src ts st
          | none => .error .panicked
        else parseGo src ts st
      | .comment isEnd sp =>
        if isEnd then
          match exitStack sp st with
          | some st => parseGo src ts st
          | none => .error .panicked
        else parseGo src ts st
      | .parameters lex sp =>
        match lex with
        | .pEnd =>
          match st.params with
          | some cache =>
            let cache := { cache with stop := sp }
            match statementParse src cache with
            | .error e => .error e
            | .ok call =>
              match cache.ctx with
              | .statementCtx =>
                let stack := pushTop st.stack (.statement call)
                parseGo src ts { st with params := none, stack := stack }
              | .blockCtx =>
                parseGo src ts
                  { st with params := none, stack := setCallTop st.stack call }
          | none => parseGo src ts st
        | _ =>
          match st.params with
          | some cache =>
            parseGo src ts
              { st with params := some { cache with toks := cache.toks ++ [(lex, sp)] } }
          | none => parseGo src ts st
      | .stringLit isNewline lex sp =>
        if isNewline then .error .stringLiteralNewline
        else
          match st.params with
          | some cache =>
            let cache := { cache with toks := cache.toks ++ [(.stringToken lex, sp)] }
            parseGo src ts { st with params := some cache }
          | none => parseGo src ts st

/-- `Parser::parse`: enter the root block, run the loop over the token
stream. -/
def parseTokens (src : List Char) (ts : List Tok) : Except SynErr Blk :=
  parseGo src ts
    { stack := [Blk.new .root none], txt := none, params := none, line := 0 }

/-! ## Whitespace-trim flags (`src/lexer/ast.rs`) -/

/-- `Node::trim_before`: a statement trims before when its open tag ends
with `~`; a block when byte 2 of its *open* tag is `~` (`{{~#`); text never
does. -/
def Nd.trim_before (src : List Char) : Nd → Bool
  | .text _ => false
  | .statement c => (c.openStr src).getLast? == some '~'
  | .block b =>
    let o := b.openStr src
    decide (o.length > 2) && (o.get? 2 == some '~')

/-- `Node::trim_after`: a statement trims after when its close tag starts
with `~`; for a block the code again inspects byte 2 of its *open* tag,
exactly as `trim_before` does. -/
def Nd.trim_after (src : List Char) : Nd → Bool
  | .text _ => false
  | .statement c => (c.closeStr src).head? == some '~'
  | .block b =>
    let o := b.openStr src
    decide (o.length > 2) && (o.get? 2 == some '~')

/-- `Block::trim_before_close`: for a scoped block, byte 2 of the close tag
is `~` (`{{~/`). -/
def Blk.trim_before_close (src : List Char) (b : Blk) : Bool :=
  match b.kind with
  | .scoped =>
    let c := b.closeStr src
    decide (c.length > 2) && (c.get? 2 == some '~')
  | _ => false

/-- `Block::trim_after_close`: for a scoped block, the byte at
`close.len() - 3` is `~` (the `~` preceding the final `}}`, as in
`{{/name~}}`).  In Rust the subtraction precedes the length guard; `Nat`
subtraction truncates where the Rust would panic on a close tag shorter
than 3 bytes, a case the guard excludes anyway. -/
def Blk.trim_after_close (src : List Char) (b : Blk) : Bool :=
  match b.kind with
  | .scoped =>
    let c := b.closeStr src
    let pos := c.length - 3
    decide (c.length > 2) && (c.get? pos == some '~')
  | _ => false

/-! ## Render engine (`src/render.rs`, `src/render/context.rs`,
`src/helper/with.rs`) -/

/-- Rust `str::trim_start`: drop leading whitespace. -/
def trimStartList (s : List Char) : List Char :=
  s.dropWhile Char.isWhitespace

/-- Rust `str::trim_end`: drop trailing whitespace. -/
def trimEndList (s : List Char) : List Char :=
  (s.reverse.dropWhile Char.isWhitespace).reverse

/-- `Render::write_str`: apply `trim_start`/`trim_end` according to the two
flags and emit the result (an empty result emits nothing, which is the same
output).  The escape hook is not modelled: every claim that reaches
`write_str` does so through the `Node::Text` arm, which passes
`escape = false`. -/
def write_str (s : List Char) (trimS trimE : Bool) : List Char :=
  let v := if trimS then trimStartList s else s
  let v := if trimE then trimEndList v else v
  v

/-- The `Node::Text` arm of `Render::render_node` together with its trim-flag
wiring: `trim_start` is the previous sibling's `trim_after`, `trim_end` is
the next sibling's `trim_before` (`false` when there is no such sibling),
and the text is written through `write_str` with `escape = false`. -/
def renderTextSibling (src : List Char) (prev nxt : Option Nd) (sp : Span) :
    List Char :=
  let trimS := match prev with
    | some n => n.trim_after src
    | none => false
  let trimE := match nxt with
    | some n => n.trim_before src
    | none => false
  write_str (sliceSpan src sp) trimS trimE

/-- A render scope (`Scope` in `src/render.rs`): optional base value and the
locals map.  The `HashMap` is modelled as an association list where the most
recent insertion shadows older ones, matching `HashMap::insert`'s observable
lookup behaviour. -/
structure Scope where
  value : Option Json
  locals : List (List Char × Json)

/-- `Scope::new`. -/
def Scope.new : Scope :=
  { value := none, locals := [] }

/-- `Scope::set_local`: insert under the key `format!("@{}", name)`. -/
def Scope.set_local (sc : Scope) (name : List Char) (v : Json) : Scope :=
  { sc with locals := ('@' :: name, v) :: sc.locals }

/-- `Scope::set_base_value`. -/
def Scope.set_base_value (sc : Scope) (v : Json) : Scope :=
  { sc with value := some v }

/-- Look a key up in a scope's locals map. -/
def Scope.getLocal (sc : Scope) (k : List Char) : Option Json :=
  (sc.locals.find? (fun e => e.1 = k)).map Prod.snd

/-- The render-session state (`Render` in `src/render.rs`), restricted to
the fields the claims are about: the scope stack and the `callee` field.
The stack's top is the list head (Rust pushes to and pops from the `Vec`'s
end; only the top is ever accessed). -/
structure RState where
  scopes : List Scope
  callee : Option Call

/-- `Render::push_scope`: push a fresh scope. -/
def push_scope (st : RState) : RState :=
  { st with scopes := Scope.new :: st.scopes }

/-- `Render::pop_scope`: pop the top scope (no-op on an empty stack, as
`Vec::pop` returns `None`). -/
def pop_scope (st : RState) : RState :=
  { st with scopes := st.scopes.tail }

/-- `Render::scope_mut` followed by `set_base_value`: set the base value of
the top scope, if any. -/
def setBaseTop (st : RState) (v : Json) : RState :=
  match st.scopes with
  | [] => st
  | sc :: rest => { st with scopes := sc.set_base_value v :: rest }

/-- `json::find_parts`.  Modelled from the spec (the `json` module is absent
from the tree): navigate the value by the listed component names, an
`Identifier` looking up an object field or an integer-indexed array element
when the name is numeric; a miss is an absence. -/
def findField (v : Json) (name : List Char) : Option Json :=
  match v with
  | .obj fields => (fields.find? (fun f => f.1 = name)).map Prod.snd
  | .arr items =>
    if name ≠ [] && name.all Char.isDigit then
      items.get? (name.foldl (fun acc c => acc * 10 + (c.toNat - 48)) 0)
    else none
  | _ => none

/-- `json::find_parts` over a part list (see `findField`). -/
def find_parts (parts : List (List Char)) (v : Json) : Option Json :=
  match parts with
  | [] => some v
  | p :: rest =>
    match findField v p with
    | some v => find_parts rest v
    | none => none

/-- `Render::lookup` from `src/render.rs`, arm for arm: an `@root` path
resolves the remaining components against the root value; an explicit path
of exactly one component yields the current scope's base value (the root
when there is no scope or no base value); a simple path resolves against the
root only when the scope stack is empty — with a scope present the branch
does nothing and control reaches the trailing `None`, as it also does for
every other path. -/
def lookup (src : List Char) (path : Path) (root : Json)
    (scopes : List Scope) : Option Json :=
  let scope := scopes.head?
  if path.root then
    find_parts ((path.components.drop 1).map (fun c => sliceSpan src c.span))
      root
  else if path.explicit && path.components.length = 1 then
    some (match scope with
      | some sc =>
        match sc.value with
        | some b => b
        | none => root
      | none => root)
  else if path.is_simple then
    match scope with
    | some _ => none
    | none =>
      find_parts (path.components.map (fun c => sliceSpan src c.span)) root
  else none

/-- Outcome of `Render::statement`: either a helper was dispatched through
`Render::invoke` (the data document is not consulted on that branch), or
evaluation produced `EvalResult::Json` of an optional value, or the Rust
`todo!()` for sub-expression targets was reached. -/
inductive StmtEval where
  | invoked (name : List Char)
  | value (v : Option Json)
  | panicked

/-- `Render::statement` from `src/render.rs`: partial calls produce no
value; a simple path whose identifier names a registered helper dispatches
that helper (`self.registry.get_helper(path.as_str())`), otherwise — and
for every non-simple path — the path is resolved by `Render::lookup`.
`helperNames` stands for the registry's helper map. -/
def statement (src : List Char) (helperNames : List (List Char))
    (root : Json) (scopes : List Scope) (call : Call) : StmtEval :=
  if call.pflag then .value none
  else
    match call.target with
    | .path p =>
      if p.is_simple then
        if helperNames.contains (p.as_str src) then .invoked (p.as_str src)
        else .value (lookup src p root scopes)
      else .value (lookup src p root scopes)
    | .subExpr _ => .panicked

/-- The state passed to the helper during `Render::invoke`
(`self.callee = Some(call)`). -/
def invokeDispatchState (st : RState) (call : Call) : RState :=
  { st with callee := some call }

/-- `Render::invoke` from `src/render.rs`: set `callee`, dispatch the
helper (its outcome is `helperRes`), and on success clear `callee` and
return `Ok(None)`; the `?` on `helper.call(self)` propagates an error
immediately, before the line that clears `callee`. -/
def invoke (st : RState) (call : Call)
    (helperRes : Except HelperError (Option Json)) :
    RState × Except HelperError (Option Json) :=
  let st := invokeDispatchState st call
  match helperRes with
  | .error e => (st, .error e)
  | .ok _ => ({ st with callee := none }, .ok none)

/-- `Context::arity` from `src/render/context.rs`: an exact range
(`start == end`) demands exactly that many arguments, else `ArityExact`;
any other range demands a count within `[start, end]`, else `ArityRange`. -/
def arity (name : List Char) (nargs : Nat) (lo hi : Nat) :
    Except HelperError Unit :=
  if lo = hi then
    if nargs ≠ lo then .error (.arityExact name lo) else .ok ()
  else
    if nargs < lo || nargs > hi then .error (.arityRange name lo hi)
    else .ok ()

/-- `With::call` from `src/helper/with.rs`: assert arity `1..1`; with no
inner template return `Ok(None)`; otherwise push a scope, set its base
value to the first argument, render the inner template (`inner` is
`rc.template(template)`, returning the updated state and an optional
error), and pop the scope — the `?` on `rc.template(template)` propagates
an error before the `pop_scope` line.  The unreachable
`args.get(0).unwrap()` with an empty argument list is the panic path. -/
def withCall (st : RState) (name : List Char) (args : List Json)
    (template : Option Unit)
    (inner : RState → RState × Option HelperError) :
    RState × Except HelperError (Option Json) :=
  match arity name args.length 1 1 with
  | .error e => (st, .error e)
  | .ok _ =>
    match template with
    | none => (st, .ok none)
    | some _ =>
      match args with
      | [] => (st, .error .panicked)
      | target :: _ =>
        let st := push_scope st
        let st := setBaseTop st target
        match inner st with
        | (st, some e) => (st, .error e)
        | (st, none) => (pop_scope st, .ok none)

/-! ## Token-stream well-formedness

The lexer is absent from the source tree; the two checkers below capture the
properties of its output that the round-trip theorem relies on, as stated by
the spec: the token spans are non-decreasing and cover the source ("The
lexer produces a flat sequence of `(kind, span)` pairs", "Every span is
within `[0, source.len()]` and non-decreasing"), and a statement-only stream
alternates outer text with `{{ … }}` parameter sections. -/

/-- Do the token spans tile the source exactly: each span starts where the
previous one stopped, never runs backwards, and the last one stops at the
source length? -/
def tiles (pos : Nat) : List Tok → Nat → Bool
  | [], n => pos == n
  | t :: ts, n =>
    (t.span.start == pos) && decide (pos ≤ t.span.stop)
      && tiles t.span.stop ts n

/-- Is the token stream made only of outer text, outer newlines, and inline
statements (`{{` … parameter tokens … `}}`)?  The Bool argument is the mode:
`false` outside a tag, `true` inside one. -/
def stmtChk : Bool → List Tok → Bool
  | false, [] => true
  | false, (.block .textLex _) :: ts => stmtChk false ts
  | false, (.block .newlineLex _) :: ts => stmtChk false ts
  | false, (.block .startStatement _) :: ts => stmtChk true ts
  | true, (.parameters .pEnd _) :: ts => stmtChk false ts
  | true, (.parameters _ _) :: ts => stmtChk true ts
  | true, (.stringLit false _ _) :: ts => stmtChk true ts
  | _, _ => false

/-- The invariant that ties the parser state to the consumed source prefix:
with no pending text, the leaves gathered so far spell the consumed prefix;
with pending text, they spell it once the pending span (which ends at the
cursor) is appended. -/
def TxtInv (src : List Char) (ns : List Nd) (txt : Option Span)
    (pos : Nat) : Prop :=
  match txt with
  | none => leafList src ns = src.take pos
  | some sp =>
    leafList src ns ++ sliceSpan src sp = src.take pos
      ∧ sp.stop = pos ∧ sp.start ≤ pos

/-! ## Concrete templates used by the claims -/

/-- The source `\x7b\x7b!x\x7d\x7d` (a line comment wrapping `x`). -/
def c1src : List Char := "\x7b\x7b!x\x7d\x7d".toList

/-- Token stream for `c1src`, following the spec's lexer table: `\x7b\x7b!`
opens a line comment, `x` is its verbatim body, `\x7d\x7d` closes it. -/
def c1toks : List Tok :=
  [.block .startComment ⟨0, 3⟩, .comment false ⟨3, 4⟩, .comment true ⟨4, 6⟩]

/-- The AST `Parser::parse` produces for `c1src`: a comment block holding
one text child; the comment's delimiters live only in the block's open and
close spans. -/
def c1ast : Blk :=
  .mk .root none none none
    [.block (.mk .comment (some ⟨0, 3⟩) (some ⟨4, 6⟩) none [.text ⟨3, 4⟩])]

/-- A source for the amended round-trip: `a\x7b\x7bx\x7d\x7d b`. -/
def c1wsrc : List Char := "a\x7b\x7bx\x7d\x7d b".toList

/-- Token stream for `c1wsrc`: text, a statement, text. -/
def c1wtoks : List Tok :=
  [.block .textLex ⟨0, 1⟩, .block .startStatement ⟨1, 3⟩,
   .parameters .identifier ⟨3, 4⟩, .parameters .pEnd ⟨4, 6⟩,
   .block .textLex ⟨6, 8⟩]

/-- The AST for `c1wsrc`. -/
def c1wast : Blk :=
  .mk .root none none none
    [.text ⟨0, 1⟩,
     .statement (.mk false ⟨1, 3⟩ ⟨4, 6⟩
       (.path ⟨[⟨.identifier, ⟨3, 4⟩⟩], false, false, 0⟩)),
     .text ⟨6, 8⟩]

/-- The source `\x7b\x7b#foo\x7d\x7d\x7b\x7b/bar\x7d\x7d`: a block opened as
`foo` and closed as `bar`. -/
def c2src : List Char :=
  "\x7b\x7b#foo\x7d\x7d\x7b\x7b/bar\x7d\x7d".toList

/-- Token stream for `c2src` per the spec's lexer table: the `\x7b\x7b#`
opener, the identifier, the tag close, and the whole close tag as one
`EndBlockScope` token. -/
def c2toks : List Tok :=
  [.block .startBlockScope ⟨0, 3⟩, .parameters .identifier ⟨3, 6⟩,
   .parameters .pEnd ⟨6, 8⟩, .block .endBlockScope ⟨8, 16⟩]

/-- The call of the `foo` block in `c2src`. -/
def c2call : Call :=
  .mk false ⟨0, 3⟩ ⟨6, 8⟩ (.path ⟨[⟨.identifier, ⟨3, 6⟩⟩], false, false, 0⟩)

/-- The AST `Parser::parse` produces for `c2src`: the mismatched close tag
is accepted and recorded as the block's close span. -/
def c2ast : Blk :=
  .mk .root none none none
    [.block (.mk .scoped (some ⟨0, 3⟩) (some ⟨8, 16⟩) (some c2call) [])]

/-- The source `\x7b\x7b#b\x7d\x7dx\x7b\x7b/b~\x7d\x7d  y`: a block whose
close tag carries a right-edge trim sigil, followed by text with leading
whitespace. -/
def c4src : List Char :=
  "\x7b\x7b#b\x7d\x7dx\x7b\x7b/b~\x7d\x7d  y".toList

/-- Token stream for `c4src`. -/
def c4toks : List Tok :=
  [.block .startBlockScope ⟨0, 3⟩, .parameters .identifier ⟨3, 4⟩,
   .parameters .pEnd ⟨4, 6⟩, .block .textLex ⟨6, 7⟩,
   .block .endBlockScope ⟨7, 14⟩, .block .textLex ⟨14, 17⟩]

/-- The call of the `b` block in `c4src`. -/
def c4call : Call :=
  .mk false ⟨0, 3⟩ ⟨4, 6⟩ (.path ⟨[⟨.identifier, ⟨3, 4⟩⟩], false, false, 0⟩)

/-- The `b` block of `c4src`, as the parser builds it. -/
def c4blk : Blk :=
  .mk .scoped (some ⟨0, 3⟩) (some ⟨7, 14⟩) (some c4call) [.text ⟨6, 7⟩]

/-- The AST for `c4src`. -/
def c4ast : Blk :=
  .mk .root none none none [.block c4blk, .text ⟨14, 17⟩]

/-- The source `\x7b\x7bfoo\x7d\x7d`. -/
def c5asrc : List Char := "\x7b\x7bfoo\x7d\x7d".toList

/-- The call for `c5asrc`: the simple path `foo`. -/
def c5acall : Call :=
  .mk false ⟨0, 2⟩ ⟨5, 7⟩ (.path ⟨[⟨.identifier, ⟨2, 5⟩⟩], false, false, 0⟩)

/-- The source `\x7b\x7bthis.foo\x7d\x7d`. -/
def c5bsrc : List Char := "\x7b\x7bthis.foo\x7d\x7d".toList

/-- The path of `this.foo`: explicit flag, a `ThisKeyword` component and an
`Identifier` component (delimiters are consumed, not stored). -/
def c5bpath : Path :=
  ⟨[⟨.thisKeyword, ⟨2, 6⟩⟩, ⟨.identifier, ⟨7, 10⟩⟩], false, true, 0⟩

/-- The call for `c5bsrc`. -/
def c5bcall : Call := .mk false ⟨0, 2⟩ ⟨10, 12⟩ (.path c5bpath)

/-- The registry contents for the C5 scenario: a helper named `foo`. -/
def c5reg : List (List Char) := [['f', 'o', 'o']]

/-- The data document for the C5 scenario: `⦃"foo": "qux"⦄`. -/
def c5data : Json := .obj [(['f', 'o', 'o'], .str ['q', 'u', 'x'])]

/-- The source `\x7b\x7b\x7d\x7d` of the empty-statement boundary test. -/
def c9src : List Char := "\x7b\x7b\x7d\x7d".toList

/-- Token stream for `c9src`: the statement opener and the immediate tag
close. -/
def c9toks : List Tok :=
  [.block .startStatement ⟨0, 2⟩, .parameters .pEnd ⟨2, 4⟩]

/-- Apply a sequence of `Scope::set_local` calls. -/
def applySetLocals (sc : Scope) : List (List Char × Json) → Scope
  | [] => sc
  | (n, v) :: rest => applySetLocals (sc.set_local n v) rest

/-! ## Theorems -/

/-- C2.  For a template whose block is opened as `foo` and closed as `bar`,
the claim says compilation fails with `TagNameMismatch`; the parser's
`EndBlockScope` arm, whose name check is an unwritten `TODO`, instead pops
the block and compilation succeeds with the mismatched close span recorded
on the block.  (The error variant `TagNameMismatch` exists in
`src/error/syntax.rs` but is never produced.) -/
theorem c2_tag_mismatch_accepted : parseTokens c2src c2toks = .ok c2ast := by
  rfl

/-- C3, counterexample.  The `with` helper does not restore the scope-stack
depth on every exit path: when rendering the inner template fails, the `?`
in `With::call` propagates the error before `pop_scope` runs, leaving the
pushed scope on the stack (depth 1 whereas it was 0 before the call). -/
theorem c3_scope_counterexample :
    ((withCall ⟨[], none⟩ ['w'] [Json.null] (some ())
        (fun s => (s, some (.other ['e'])))).1).scopes.length ≠
      (RState.mk [] none).scopes.length := by
  simp [withCall, arity, push_scope, setBaseTop, pop_scope, Scope.new,
    Scope.set_base_value, RState.mk.injEq]

/-- C3, amended.  `With::call` preserves the scope-stack depth on the
arity-error path, on the missing-template path and on the success path; but
when rendering the inner template returns an error, the error propagates
with the pushed scope still on the stack, so the depth is one greater than
before the call (assuming the inner rendering itself is depth-preserving,
as a balanced render is). -/
theorem c3_with_scope_balance (st : RState) (name : List Char)
    (args : List Json) (tpl : Option Unit)
    (inner : RState → RState × Option HelperError)
    (hinner : ∀ s, ((inner s).1).scopes.length = s.scopes.length) :
    (args.length ≠ 1 →
      ((withCall st name args tpl inner).1).scopes.length =
        st.scopes.length) ∧
    (tpl = none →
      ((withCall st name args tpl inner).1).scopes.length =
        st.scopes.length) ∧
    (∀ target, args = [target] → tpl = some () →
      ((inner (setBaseTop (push_scope st) target)).2 = none →
        ((withCall st name args tpl inner).1).scopes.length =
          st.scopes.length) ∧
      (∀ e, (inner (setBaseTop (push_scope st) target)).2 = some e →
        ((withCall st name args tpl inner).1).scopes.length =
          st.scopes.length + 1)) := by
  refine ⟨?_, ?_, ?_⟩
  · intro hne
    simp [withCall, arity, hne]
  · intro htpl
    subst htpl
    by_cases h1 : args.length = 1 <;> simp [withCall, arity, h1]
  · intro target hargs htpl
    subst hargs; subst htpl
    have hlen : ([target] : List Json).length = 1 := rfl
    have hbase : ∀ v, (setBaseTop (push_scope st) v).scopes.length =
        st.scopes.length + 1 := by
      intro v
      simp [push_scope, setBaseTop, Scope.new]
    constructor
    · intro hok
      rcases hres : inner (setBaseTop (push_scope st) target) with ⟨st2, r⟩
      have hr : r = none := by
        have := hok
        rw [hres] at this
        exact this
      subst hr
      have h2 : st2.scopes.length = st.scopes.length + 1 := by
        have := hinner (setBaseTop (push_scope st) target)
        rw [hres] at this
        simpa [hbase] using this
      simp [withCall, arity, hres, pop_scope, h2]
    · intro e herr
      rcases hres : inner (setBaseTop (push_scope st) target) with ⟨st2, r⟩
      have hr : r = some e := by
        have := herr
        rw [hres] at this
        exact this
      subst hr
      have h2 : st2.scopes.length = st.scopes.length + 1 := by
        have := hinner (setBaseTop (push_scope st) target)
        rw [hres] at this
        simpa [hbase] using this
      simp [withCall, arity, hres, h2]

/-- C3, witness for the amended theorem: on a successful inner render the
depth is restored (concrete instance with an empty initial stack). -/
theorem c3_with_scope_balance_witness :
    ((withCall ⟨[], none⟩ ['w'] [Json.null] (some ())
        (fun s => (s, none))).1).scopes.length = 0 :=
  ((c3_with_scope_balance ⟨[], none⟩ ['w'] [Json.null] (some ())
      (fun s => (s, none)) (fun _ => rfl)).2.2 Json.null rfl rfl).1 rfl

/-- C4.  For the template `\x7b\x7b#b\x7d\x7dx\x7b\x7b/b~\x7d\x7d  y` the
claim says the `~` on the close tag's right edge sets the block's trim-after
flag, so the following text loses its leading whitespace.  The code's
`Node::trim_after` instead inspects byte 2 of the *open* tag (the same byte
as `trim_before`), so the flag is `false`, the following text is written
untrimmed as `  y` — although the block's own (unused) `trim_after_close`
correctly reads the close edge and returns `true`, and trimming would have
produced `y`. -/
theorem c4_block_trim_after_wrong_edge :
    parseTokens c4src c4toks = .ok c4ast ∧
    Nd.trim_after c4src (.block c4blk) = false ∧
    Blk.trim_after_close c4src c4blk = true ∧
    renderTextSibling c4src (some (.block c4blk)) none ⟨14, 17⟩ =
      (' ' :: ' ' :: ['y']) ∧
    trimStartList (sliceSpan c4src ⟨14, 17⟩) = ['y'] := by
  refine ⟨rfl, by decide, by decide, by decide, by decide⟩

/-- C5.  For `\x7b\x7bfoo\x7d\x7d` with a helper registered as `foo`,
`Render::statement` dispatches the helper (the `invoked` branch never reads
the data document).  For the explicit path `\x7b\x7bthis.foo\x7d\x7d` the
helper registry is indeed skipped, but — against the claim and the
repository's own `helper_explicit_this` test, which expects `qux` — the
value is not resolved against the scope's base value: `Render::lookup`
falls through to `None` for every explicit path of more than one
component, with or without a scope on the stack. -/
theorem c5_explicit_this_not_resolved :
    statement c5asrc c5reg c5data [] c5acall =
      .invoked ['f', 'o', 'o'] ∧
    path.parse c5bsrc
        [(.explicitThisKeyword, ⟨2, 6⟩), (.pathDelimiter, ⟨6, 7⟩),
         (.identifier, ⟨7, 10⟩)] = .ok (some c5bpath, []) ∧
    statement c5bsrc c5reg c5data [] c5bcall = .value none ∧
    statement c5bsrc c5reg c5data [Scope.new.set_base_value c5data]
      c5bcall = .value none := by
  refine ⟨rfl, rfl, rfl, rfl⟩

/-- C6, counterexample.  When the dispatched helper returns an error,
`Render::invoke` propagates it through `?` before the line that clears
`callee`, so the `callee` field is not reset to `None`. -/
theorem c6_callee_counterexample :
    ((invoke ⟨[], none⟩ c2call (.error (.other ['e']))).1).callee ≠
      none := by
  simp [invoke, invokeDispatchState]

/-- C6, amended.  During dispatch the render state's `callee` equals the
invoked call; on a successful return `callee` is reset to `None` (and the
invocation yields `Ok(None)`); when the helper returns an error, the error
propagates with `callee` still holding the call. -/
theorem c6_invoke_callee (st : RState) (call : Call) (v : Option Json)
    (e : HelperError) :
    (invokeDispatchState st call).callee = some call ∧
    ((invoke st call (.ok v)).1).callee = none ∧
    (invoke st call (.ok v)).2 = .ok none ∧
    ((invoke st call (.error e)).1).callee = some call ∧
    (invoke st call (.error e)).2 = .error e :=
  ⟨rfl, rfl, rfl, rfl, rfl⟩

/-- C7.  `Context::arity(lo..hi)` admits exactly the claimed argument
counts: for an exact range (`lo = hi`) it returns the `ArityExact` error
carrying the helper's name and `lo` iff the count differs from `lo`, and
`Ok` iff it equals `lo`; for a proper range (`lo < hi`) it returns the
`ArityRange` error carrying the name, `lo` and `hi` iff the count falls
outside `[lo, hi]`, and `Ok` iff it falls inside. -/
theorem c7_arity_correct (name : List Char) (n lo hi : Nat) :
    (lo = hi →
      ((arity name n lo hi = .error (.arityExact name lo) ↔ n ≠ lo) ∧
       (arity name n lo hi = .ok () ↔ n = lo))) ∧
    (lo < hi →
      ((arity name n lo hi = .error (.arityRange name lo hi) ↔
          (n < lo ∨ hi < n)) ∧
       (arity name n lo hi = .ok () ↔ (lo ≤ n ∧ n ≤ hi)))) := by
  constructor
  · intro h
    subst h
    by_cases hn : n = lo <;> simp [arity, hn]
  · intro h
    have hne : ¬(lo = hi) := Nat.ne_of_lt h
    by_cases h1 : n < lo
    · simp [arity, hne, h1]
    · by_cases h2 : hi < n
      · simp [arity, hne, h1, h2]
      · simp [arity, hne, h1, h2]
        omega

/-- C7, witness: a helper named `w` called with 2 arguments against the
exact range `1..1` is rejected with `ArityExact("w", 1)`. -/
theorem c7_arity_correct_witness :
    arity ['w'] 2 1 1 = .error (.arityExact ['w'] 1) :=
  (((c7_arity_correct ['w'] 2 1 1).1 rfl).1).mpr (by decide)

/-- C9.  Compiling `\x7b\x7b\x7d\x7d` fails with the `EmptyStatement`
syntax error positioned at byte offset 2 of the source, as the repository's
`err_empty_statement` test asserts (the statement parser is modelled from
the spec, `parser/statement.rs` being absent from the tree). -/
theorem c9_empty_statement :
    parseTokens c9src c9toks = .error (.emptyStatement 2) := by
  rfl

/-- Every key of a scope's locals map starts with `@`, and stays so under
any further `Scope::set_local` calls: helper induction for C10. -/
theorem applySetLocals_keys (ops : List (List Char × Json)) :
    ∀ sc : Scope,
      (sc.locals.all (fun e => e.1.head? == some '@')) = true →
      (((applySetLocals sc ops).locals.all
        (fun e => e.1.head? == some '@'))) = true := by
  induction ops with
  | nil => intro sc h; exact h
  | cons op rest ih =>
    rcases op with ⟨n, v⟩
    intro sc h
    exact ih (sc.set_local n v) (by simp [Scope.set_local, h])

/-- C10.  `Scope::set_local(name, value)` stores the value under the key
`@name`: starting from a fresh scope, after any sequence of `set_local`
calls every key in the locals map begins with `@`; and a local registered
as `index` is found under the key `@index` but not under `index`. -/
theorem c10_set_local_at_prefix (ops : List (List Char × Json)) (v : Json) :
    (((applySetLocals Scope.new ops).locals.all
      (fun e => e.1.head? == some '@'))) = true ∧
    (Scope.new.set_local ['i', 'n', 'd', 'e', 'x'] v).getLocal
      ('@' :: ['i', 'n', 'd', 'e', 'x']) = some v ∧
    (Scope.new.set_local ['i', 'n', 'd', 'e', 'x'] v).getLocal
      ['i', 'n', 'd', 'e', 'x'] = none :=
  ⟨applySetLocals_keys ops Scope.new rfl, rfl, rfl⟩

/-- Is an `Except` result a success? -/
def exceptIsOk {α : Type} : Except SynErr α → Bool
  | .ok _ => true
  | .error _ => false

/-- C8.  In `src/parser/path.rs` every component after the first is read by
`components`, and there an explicit-this token (`this` or `./`) is the
error `UnexpectedPathExplicitThis`, a parent reference (`../`) is
`UnexpectedPathParent`, and a local identifier (`@name`) is
`UnexpectedPathLocal`, whatever the accumulated path, delimiter state or
remaining input; while each of these tokens in first position is accepted
by `parse` without error. -/
theorem c8_path_component_position (src : List Char) (p : Path) (wd : Bool)
    (sp : Span) (rest : List (PTok × Span)) :
    (path.components src p wd ((PTok.explicitThisKeyword, sp) :: rest) =
      .error .unexpectedPathExplicitThis) ∧
    (path.components src p wd ((PTok.explicitThisDotSlash, sp) :: rest) =
      .error .unexpectedPathExplicitThis) ∧
    (path.components src p wd ((PTok.parentRef, sp) :: rest) =
      .error .unexpectedPathParent) ∧
    (path.components src p wd ((PTok.localIdentifier, sp) :: rest) =
      .error .unexpectedPathLocal) ∧
    exceptIsOk (path.parse src [(PTok.explicitThisKeyword, sp)]) = true ∧
    exceptIsOk (path.parse src [(PTok.explicitThisDotSlash, sp)]) = true ∧
    exceptIsOk (path.parse src [(PTok.localIdentifier, sp)]) = true ∧
    exceptIsOk (path.parse src [(PTok.parentRef, sp)]) = true := by
  refine ⟨rfl, rfl, rfl, rfl, ?_, ?_, ?_, ?_⟩
  · cases hroot : Component.is_root src ⟨ComponentType.thisKeyword, sp⟩ <;>
      simp [path.parse, path.parseLoop, path.components, Path.new,
        Path.is_empty, Component.is_explicit, Component.is_local,
        Component.is_explicit_dot_slash, component_type, is_path_component,
        hroot, exceptIsOk]
  · cases hroot : Component.is_root src ⟨ComponentType.thisDotSlash, sp⟩ <;>
      simp [path.parse, path.parseLoop, path.components, Path.new,
        Path.is_empty, Component.is_explicit, Component.is_local,
        Component.is_explicit_dot_slash, component_type, is_path_component,
        hroot, exceptIsOk]
  · cases hroot : Component.is_root src ⟨ComponentType.localIdentifier, sp⟩ <;>
      simp [path.parse, path.parseLoop, path.components, Path.new,
        Path.is_empty, Component.is_explicit, Component.is_local,
        Component.is_explicit_dot_slash, component_type, is_path_component,
        hroot, exceptIsOk]
  · rfl

/-- The consumed prefix grows by a slice: `take a ++ slice a b = take b`. -/
theorem take_append_slice (l : List Char) (a b : Nat) (h : a ≤ b) :
    l.take a ++ slice l a b = l.take b := by
  have h1 : (l.take b).take a = l.take a := by
    rw [List.take_take]
    congr 1
    omega
  calc l.take a ++ slice l a b
      = (l.take b).take a ++ (l.take b).drop a := by rw [h1]; rfl
    _ = l.take b := List.take_append_drop a (l.take b)

/-- Adjacent slices merge. -/
theorem slice_merge (l : List Char) (a p e : Nat) (hap : a ≤ p)
    (hpe : p ≤ e) : slice l a p ++ slice l p e = slice l a e := by
  have h1 := take_append_slice l a p hap
  have h2 := take_append_slice l p e hpe
  have h3 := take_append_slice l a e (hap.trans hpe)
  have : l.take a ++ (slice l a p ++ slice l p e) =
      l.take a ++ slice l a e := by
    rw [← List.append_assoc, h1, h2, h3]
  exact List.append_cancel_left this

/-- Leaf text distributes over node-list concatenation. -/
theorem leafList_append (src : List Char) (ns ms : List Nd) :
    leafList src (ns ++ ms) = leafList src ns ++ leafList src ms := by
  induction ns with
  | nil => simp [leafList]
  | cons n rest ih => simp [leafList, ih]

/-- A successful `statement::parse` yields a call whose open and close spans
are the cached tag-open and tag-close spans. -/
theorem statementParse_spans (src : List Char) (c : PCache) (call : Call)
    (h : statementParse src c = .ok call) :
    call.openSpan = c.start ∧ call.closeSpan = c.stop := by
  by_cases he : c.toks.isEmpty
  · simp [statementParse, he] at h
  · rcases hp : path.parse src c.toks with e | pr
    · simp [statementParse, he, hp] at h
    · rcases pr with ⟨op, rest⟩
      cases op with
      | none => simp [statementParse, he, hp] at h
      | some p =>
        simp [statementParse, he, hp] at h
        rw [← h]
        exact ⟨rfl, rfl⟩

/-- Unfolding a step of `tiles`. -/
theorem tiles_cons (t : Tok) (ts : List Tok) (pos n : Nat)
    (h : tiles pos (t :: ts) n = true) :
    t.span.start = pos ∧ pos ≤ t.span.stop ∧
      tiles t.span.stop ts n = true := by
  simp only [tiles, Bool.and_eq_true, beq_iff_eq, decide_eq_true_eq] at h
  exact ⟨h.1.1, h.1.2, h.2⟩

/-- The parser invariant behind the amended C1: over a tiling token stream
of outer text and inline statements, the parser keeps the root block's
leaves spelling exactly the consumed source prefix, both outside a tag
(first conjunct; `TxtInv` accounts for the pending text) and inside one
(second conjunct; the leaves spell the prefix up to the tag opener). -/
theorem c1_go_invariant (src : List Char) : ∀ ts : List Tok,
    (∀ pos ns txt line b,
      tiles pos ts src.length = true →
      stmtChk false ts = true →
      TxtInv src ns txt pos →
      parseGo src ts ⟨[.mk .root none none none ns], txt, none, line⟩ =
        .ok b →
      displayBlk src b = src ∧ leafBlk src b = src) ∧
    (∀ pos ns cache line b,
      tiles pos ts src.length = true →
      stmtChk true ts = true →
      cache.ctx = .statementCtx →
      leafList src ns = src.take cache.start.start →
      cache.start.start ≤ pos →
      parseGo src ts
          ⟨[.mk .root none none none ns], none, some cache, line⟩ =
        .ok b →
      displayBlk src b = src ∧ leafBlk src b = src) := by
  intro ts
  induction ts with
  | nil =>
    constructor
    · intro pos ns txt line b ht hc hinv hp
      have hpos : pos = src.length := by
        simpa [tiles] using ht
      subst hpos
      cases txt with
      | none =>
        simp [parseGo, flushText] at hp
        subst hp
        simp only [TxtInv] at hinv
        rw [List.take_length] at hinv
        exact ⟨rfl, hinv⟩
      | some sp =>
        simp [parseGo, flushText, pushTop, Blk.push, Blk.kind, Blk.openSpan,
          Blk.closeSpan, Blk.call, Blk.nodes] at hp
        subst hp
        simp only [TxtInv] at hinv
        rw [List.take_length] at hinv
        refine ⟨rfl, ?_⟩
        show leafList src (ns ++ [.text sp]) = src
        rw [leafList_append]
        simpa [leafList, leafNd] using hinv.1
    · intro pos ns cache line b ht hc hctx hleaf hle hp
      simp [stmtChk] at hc
  | cons t ts ih =>
    constructor
    · intro pos ns txt line b ht hc hinv hp
      obtain ⟨h1, h2, h3⟩ := tiles_cons t ts pos src.length ht
      cases t with
      | block lex sp =>
        cases lex with
        | textLex =>
          simp only [stmtChk] at hc
          simp only [Tok.span] at h1 h2
          cases txt with
          | none =>
            simp only [parseGo, Tok.is_text, Tok.is_newline, accumText,
              Bool.false_eq_true, ite_false, ite_true] at hp
            refine ih.1 sp.stop ns (some sp) line b h3 hc ?_ hp
            simp only [TxtInv] at hinv ⊢
            subst h1
            refine ⟨?_, trivial, h2⟩
            rw [← take_append_slice src sp.start sp.stop h2, hinv]
            rfl
          | some old =>
            simp only [parseGo, Tok.is_text, Tok.is_newline, accumText,
              Bool.false_eq_true, ite_false, ite_true] at hp
            refine ih.1 sp.stop ns (some ⟨old.start, sp.stop⟩) line b h3 hc
              ?_ hp
            simp only [TxtInv] at hinv ⊢
            obtain ⟨he, hstop, hstart⟩ := hinv
            refine ⟨?_, trivial, by omega⟩
            show leafList src ns ++ slice src old.start sp.stop =
              src.take sp.stop
            rw [← slice_merge src old.start pos sp.stop (by omega) h2]
            rw [← List.append_assoc]
            have he2 : leafList src ns ++ slice src old.start pos =
                src.take pos := by
              rw [← hstop] at he ⊢
              exact he
            rw [he2]
            exact take_append_slice src pos sp.stop h2
        | newlineLex =>
          simp only [stmtChk] at hc
          simp only [Tok.span] at h1 h2
          cases txt with
          | none =>
            simp only [parseGo, Tok.is_text, Tok.is_newline, accumText,
              Bool.false_eq_true, ite_false, ite_true] at hp
            refine ih.1 sp.stop ns (some sp) (line + 1) b h3 hc ?_ hp
            simp only [TxtInv] at hinv ⊢
            subst h1
            refine ⟨?_, trivial, h2⟩
            rw [← take_append_slice src sp.start sp.stop h2, hinv]
            rfl
          | some old =>
            simp only [parseGo, Tok.is_text, Tok.is_newline, accumText,
              Bool.false_eq_true, ite_false, ite_true] at hp
            refine ih.1 sp.stop ns (some ⟨old.start, sp.stop⟩) (line + 1) b
              h3 hc ?_ hp
            simp only [TxtInv] at hinv ⊢
            obtain ⟨he, hstop, hstart⟩ := hinv
            refine ⟨?_, trivial, by omega⟩
            show leafList src ns ++ slice src old.start sp.stop =
              src.take sp.stop
            rw [← slice_merge src old.start pos sp.stop (by omega) h2]
            rw [← List.append_assoc]
            have he2 : leafList src ns ++ slice src old.start pos =
                src.take pos := by
              rw [← hstop] at he ⊢
              exact he
            rw [he2]
            exact take_append_slice src pos sp.stop h2
        | startStatement =>
          simp only [stmtChk] at hc
          simp only [Tok.span] at h1 h2
          cases txt with
          | none =>
            simp only [parseGo, Tok.is_text, Tok.is_newline, flushText,
              Bool.false_eq_true, ite_false, ite_true] at hp
            refine ih.2 sp.stop ns (PCache.new .statementCtx sp) line b h3
              hc rfl ?_ ?_ hp
            · simp only [TxtInv] at hinv
              simpa [PCache.new, h1] using hinv
            · simp only [PCache.new]
              omega
          | some old =>
            simp only [parseGo, Tok.is_text, Tok.is_newline, flushText,
              pushTop, Bool.false_eq_true, ite_false, ite_true] at hp
            refine ih.2 sp.stop (ns ++ [.text old])
              (PCache.new .statementCtx sp) line b h3 hc rfl ?_ ?_ ?_
            · simp only [TxtInv] at hinv
              obtain ⟨he, hstop, hstart⟩ := hinv
              simp only [PCache.new]
              rw [leafList_append]
              simp only [leafList, leafNd, List.append_nil]
              rw [h1]
              exact he
            · simp only [PCache.new]
              omega
            · simpa [Blk.push, Blk.kind, Blk.openSpan, Blk.closeSpan,
                Blk.call, Blk.nodes] using hp
        | startRawBlock => simp [stmtChk] at hc
        | startRawComment => simp [stmtChk] at hc
        | startRawStatement => simp [stmtChk] at hc
        | startComment => simp [stmtChk] at hc
        | startBlockScope => simp [stmtChk] at hc
        | endBlockScope => simp [stmtChk] at hc
      | parameters lex sp => simp [stmtChk] at hc
      | stringLit nl l sp => simp [stmtChk] at hc
      | rawBlock e sp => simp [stmtChk] at hc
      | rawComment e sp => simp [stmtChk] at hc
      | rawStatement e sp => simp [stmtChk] at hc
      | comment e sp => simp [stmtChk] at hc
    · intro pos ns cache line b ht hc hctx hleaf hle hp
      obtain ⟨h1, h2, h3⟩ := tiles_cons t ts pos src.length ht
      cases t with
      | parameters lex sp =>
        simp only [Tok.span] at h1 h2
        cases lex with
        | pEnd =>
          simp only [stmtChk] at hc
          simp only [parseGo, Tok.is_text, Tok.is_newline, flushText,
            Bool.false_eq_true, ite_false, ite_true] at hp
          rcases hsp : statementParse src { cache with stop := sp }
            with e | call
          · rw [hsp] at hp
            simp at hp
          · rw [hsp] at hp
            simp only at hp
            rw [hctx] at hp
            simp only [pushTop] at hp
            obtain ⟨ho, hcl⟩ := statementParse_spans src _ call hsp
            refine ih.1 sp.stop (ns ++ [.statement call]) none line b h3 hc
              ?_ ?_
            · simp only [TxtInv]
              rw [leafList_append]
              simp only [leafList, leafNd, Call.as_str, List.append_nil]
              rw [ho, hcl]
              show leafList src ns ++ slice src cache.start.start sp.stop =
                src.take sp.stop
              rw [hleaf]
              exact take_append_slice src cache.start.start sp.stop
                (by omega)
            · simpa [Blk.push, Blk.kind, Blk.openSpan, Blk.closeSpan,
                Blk.call, Blk.nodes] using hp
        | explicitThisKeyword =>
          simp only [stmtChk] at hc
          simp only [parseGo, Tok.is_text, Tok.is_newline, flushText,
            Bool.false_eq_true, ite_false, ite_true] at hp
          exact ih.2 sp.stop ns
            { cache with toks := cache.toks ++ [(PTok.explicitThisKeyword, sp)] }
            line b h3 hc hctx hleaf (le_trans hle h2) hp
        | explicitThisDotSlash =>
          simp only [stmtChk] at hc
          simp only [parseGo, Tok.is_text, Tok.is_newline, flushText,
            Bool.false_eq_true, ite_false, ite_true] at hp
          exact ih.2 sp.stop ns
            { cache with toks := cache.toks ++ [(PTok.explicitThisDotSlash, sp)] }
            line b h3 hc hctx hleaf (le_trans hle h2) hp
        | parentRef =>
          simp only [stmtChk] at hc
          simp only [parseGo, Tok.is_text, Tok.is_newline, flushText,
            Bool.false_eq_true, ite_false, ite_true] at hp
          exact ih.2 sp.stop ns
            { cache with toks := cache.toks ++ [(PTok.parentRef, sp)] }
            line b h3 hc hctx hleaf (le_trans hle h2) hp
        | identifier =>
          simp only [stmtChk] at hc
          simp only [parseGo, Tok.is_text, Tok.is_newline, flushText,
            Bool.false_eq_true, ite_false, ite_true] at hp
          exact ih.2 sp.stop ns
            { cache with toks := cache.toks ++ [(PTok.identifier, sp)] }
            line b h3 hc hctx hleaf (le_trans hle h2) hp
        | localIdentifier =>
          simp only [stmtChk] at hc
          simp only [parseGo, Tok.is_text, Tok.is_newline, flushText,
            Bool.false_eq_true, ite_false, ite_true] at hp
          exact ih.2 sp.stop ns
            { cache with toks := cache.toks ++ [(PTok.localIdentifier, sp)] }
            line b h3 hc hctx hleaf (le_trans hle h2) hp
        | pathDelimiter =>
          simp only [stmtChk] at hc
          simp only [parseGo, Tok.is_text, Tok.is_newline, flushText,
            Bool.false_eq_true, ite_false, ite_true] at hp
          exact ih.2 sp.stop ns
            { cache with toks := cache.toks ++ [(PTok.pathDelimiter, sp)] }
            line b h3 hc hctx hleaf (le_trans hle h2) hp
        | arrayAccess =>
          simp only [stmtChk] at hc
          simp only [parseGo, Tok.is_text, Tok.is_newline, flushText,
            Bool.false_eq_true, ite_false, ite_true] at hp
          exact ih.2 sp.stop ns
            { cache with toks := cache.toks ++ [(PTok.arrayAccess, sp)] }
            line b h3 hc hctx hleaf (le_trans hle h2) hp
        | stringLiteral =>
          simp only [stmtChk] at hc
          simp only [parseGo, Tok.is_text, Tok.is_newline, flushText,
            Bool.false_eq_true, ite_false, ite_true] at hp
          exact ih.2 sp.stop ns
            { cache with toks := cache.toks ++ [(PTok.stringLiteral, sp)] }
            line b h3 hc hctx hleaf (le_trans hle h2) hp
        | stringToken s =>
          simp only [stmtChk] at hc
          simp only [parseGo, Tok.is_text, Tok.is_newline, flushText,
            Bool.false_eq_true, ite_false, ite_true] at hp
          exact ih.2 sp.stop ns
            { cache with toks := cache.toks ++ [(PTok.stringToken s, sp)] }
            line b h3 hc hctx hleaf (le_trans hle h2) hp
      | stringLit nl l sp =>
        cases nl with
        | true => simp [stmtChk] at hc
        | false =>
          simp only [Tok.span] at h1 h2
          simp only [stmtChk] at hc
          simp only [parseGo, Tok.is_text, Tok.is_newline, flushText,
            Bool.false_eq_true, ite_false, ite_true] at hp
          exact ih.2 sp.stop ns
            { cache with toks := cache.toks ++ [(PTok.stringToken l, sp)] }
            line b h3 hc hctx hleaf (le_trans hle h2) hp
      | block lex sp => cases lex <;> simp [stmtChk] at hc
      | rawBlock e sp => simp [stmtChk] at hc
      | rawComment e sp => simp [stmtChk] at hc
      | rawStatement e sp => simp [stmtChk] at hc
      | comment e sp => simp [stmtChk] at hc

/-- C1, counterexample.  The comment template `\x7b\x7b!x\x7d\x7d` compiles
successfully, and formatting the root via `Display` does reproduce the
source (the root arm prints the stored source string) — but concatenating
the `as_str()` of all leaf nodes in document order yields only the comment
body `x`, not the source: a non-root block's open and close tags are not
among its children's leaves. -/
theorem c1_roundtrip_counterexample :
    parseTokens c1src c1toks = .ok c1ast ∧
    displayNd c1src (.block c1ast) = c1src ∧
    leafBlk c1src c1ast ≠ c1src :=
  ⟨rfl, rfl, by decide⟩

/-- C1, amended.  For every template source that compiles successfully,
formatting the parsed root node via `Display` reproduces the source; and
for templates without block constructs — a tiling token stream of outer
text, newlines and inline statements — concatenating the `as_str()` of all
leaf nodes in document order also reproduces the source exactly. -/
theorem c1_roundtrip_amended (src : List Char) (ts : List Tok) (b : Blk)
    (h1 : tiles 0 ts src.length = true) (h2 : stmtChk false ts = true)
    (h3 : parseTokens src ts = .ok b) :
    displayBlk src b = src ∧ leafBlk src b = src :=
  (c1_go_invariant src ts).1 0 [] none 0 b h1 h2 (by simp [TxtInv, leafList])
    h3

/-- C1, witness for the amended theorem: the source `a\x7b\x7bx\x7d\x7d b`
parses to a text/statement/text root whose display and leaf concatenation
both reproduce it. -/
theorem c1_roundtrip_amended_witness :
    displayBlk c1wsrc c1wast = c1wsrc ∧ leafBlk c1wsrc c1wast = c1wsrc :=
  c1_roundtrip_amended c1wsrc c1wtoks c1wast (by decide) (by decide) rfl

end Bracket
